import Mathlib

set_option linter.unusedVariables false

/-!
Verification of the lnk-parser shortcut (.lnk) decoder.

The development shallowly embeds the four source files of the repository:

* src/util.ts            : primitive decoders (GUID, FILETIME, C strings)
* src/LinkTargetIDList.ts: the target-identifier ("ID list") reader and the
                           per-tag path reconstruction
* the shell-link header reader and orchestrator (LNKParser)
* the CLI entry point is out of scope (spec section 1)

Modelling conventions, used throughout:

* a Node `Buffer` is a `List Nat` of byte values (each < 256 on real inputs;
  theorems carry that hypothesis where it matters);
* JavaScript indexing `buffer[i]` yields `undefined` out of range, which the
  arithmetic contexts of this code turn into 0 (`undefined << 8` is 0,
  `String.fromCharCode(undefined)` is the NUL character): `List.getD i 0`;
* the Node `read*LE` family throws on an out-of-range read; fallible code is
  embedded in `Except String`;
* JavaScript `x >> k` on an int32 is an arithmetic (floor) shift and `x & 0xf`
  yields the nonnegative residue: on Lean `Int` these are exactly `/ 2^k`
  (ediv) and `% 16` (emod);
* JavaScript numbers are IEEE doubles; the numeric claims are settled over
  exact arithmetic (Nat / Int / Rat), which coincides with the double
  computation on the magnitudes the format uses;
* the local timezone offset in minutes (`new Date().getTimezoneOffset()`) is
  an ambient parameter `tzMin : Rat` threaded through the date decoder.
-/

deriving instance DecidableEq for Except

namespace LnkParser

/-! ### Little-endian byte reads -/

/-- Little-endian unsigned read of `n` bytes of `b` starting at index `i`
(out-of-range bytes read as 0; the bounds checks of the callers are separate). -/
def leNat (b : List Nat) : Nat → Nat → Nat
  | _, 0 => 0
  | i, n + 1 => b.getD i 0 + 256 * leNat b (i + 1) n

/-- Reinterpret a Nat as a signed 32-bit value, as JavaScript bitwise ops do. -/
def jsToInt32 (u : Nat) : Int :=
  if u % 4294967296 < 2147483648 then ((u % 4294967296 : Nat) : Int)
  else (u % 4294967296 : Nat) - 4294967296

/-- Reinterpret a Nat as a signed 64-bit value (Buffer.readBigInt64LE). -/
def jsToInt64 (u : Nat) : Int :=
  if u % 18446744073709551616 < 9223372036854775808 then ((u % 18446744073709551616 : Nat) : Int)
  else (u % 18446744073709551616 : Nat) - 18446744073709551616

/-- String.fromCharCode: one UTF-16 code unit from a number (mod 2^16).
For byte inputs (< 256) this agrees with JavaScript; this model is only ever
applied to buffer bytes. -/
def charOfCode (n : Nat) : Char := Char.ofNat (n % 65536)

/-! ### src/util.ts -/

/-- Embeds `guidFromIDLBytes` (src/util.ts): the first field is the OR of
shifted bytes 3..0, evaluated as a signed int32 by JavaScript; since the bit
ranges of the four bytes are disjoint, the OR equals the sum, reinterpreted
as int32. The second and third fields are 16-bit combines, the tail is copied
verbatim. -/
def guidFromIDLBytes (b : List Nat) : List Int :=
  jsToInt32 (b.getD 3 0 * 16777216 + b.getD 2 0 * 65536 + b.getD 1 0 * 256 + b.getD 0 0)
    :: ((b.getD 5 0 * 256 + b.getD 4 0 : Nat) : Int)
    :: ((b.getD 7 0 * 256 + b.getD 6 0 : Nat) : Int)
    :: (b.drop 8).map (fun x => (x : Int))

/-- Embeds `dateFromFILETIME` (src/util.ts). The source computes
`Number(filetime) / 10000 - 116444736e5 - new Date().getTimezoneOffset() * 60 * 1000`;
`116444736e5 = 11644473600000`. The timezone offset in minutes is the
parameter `tzMin`, the result is the millisecond value of the produced Date. -/
def dateFromFILETIME (tzMin : ℚ) (filetime : Int) : ℚ :=
  (filetime : ℚ) / 10000 - 11644473600000 - tzMin * 60 * 1000

/-- Embeds `hexToChar` (src/util.ts): `num & 0xf`, then digits below ten map
to '0'..'9' (0x30 up) and ten..fifteen map to 'a'..'f' (0x61 up). -/
def hexToChar (num : Int) : Char :=
  let m := (num % 16).toNat
  if 9 < m then Char.ofNat (m - 10 + 97) else Char.ofNat (m + 48)

/-- The push loop of `formatGUID`: for each entry x, push `x >> 4` then `x`
(each later reduced mod 16 by hexToChar). -/
def pairNibbles : List Int → List Int
  | [] => []
  | x :: xs => x / 16 :: x :: pairNibbles xs

/-- Embeds `formatGUID` (src/util.ts): expand the four guid fields back to
big-endian display bytes, hex-encode every entry to two lowercase digits, and
assemble the registry-style hyphenated form in braces. -/
def formatGUID (guid : List Int) : String :=
  let g0 := guid.getD 0 0
  let g1 := guid.getD 1 0
  let g2 := guid.getD 2 0
  let data : List Int :=
    [g0 / 16777216, g0 / 65536, g0 / 256, g0, g1 / 256, g1, g2 / 256, g2] ++ guid.drop 3
  let hs : List Char := (pairNibbles data).map hexToChar
  String.mk (['{'] ++ hs.take 8 ++ ['-'] ++ (hs.drop 8).take 4 ++ ['-'] ++
    (hs.drop 12).take 4 ++ ['-'] ++ (hs.drop 16).take 4 ++ ['-'] ++ hs.drop 20 ++ ['}'])

/-- Embeds `readCString` (src/util.ts): append characters until the NUL
character; an out-of-range read fabricates NUL, so the scan also stops at the
end of the buffer, which the takeWhile captures. -/
def readCString (buffer : List Nat) (offset : Nat) : String :=
  String.mk (((buffer.drop offset).takeWhile (fun b => decide (b % 65536 ≠ 0))).map charOfCode)

/-- Code-unit scan of `readCUnicode` (src/util.ts): 16-bit little-endian units
until a zero unit; out-of-range reads yield zero, so the scan stops at the end
of the buffer. -/
def readCUnicodeUnits (buffer : List Nat) (offset : Nat) : List Nat :=
  if h : buffer.getD (offset + 1) 0 * 256 + buffer.getD offset 0 = 0 then []
  else (buffer.getD (offset + 1) 0 * 256 + buffer.getD offset 0)
    :: readCUnicodeUnits buffer (offset + 2)
termination_by buffer.length - offset
decreasing_by
  have hoff : offset < buffer.length := by
    by_contra hc
    push_neg at hc
    rw [List.getD_eq_default _ _ (by omega), List.getD_eq_default _ _ (by omega)] at h
    simp at h
  omega

/-- Embeds `readCUnicode` (src/util.ts). -/
def readCUnicode (buffer : List Nat) (offset : Nat) : String :=
  String.mk ((readCUnicodeUnits buffer offset).map charOfCode)

/-- Embeds `readString` (src/util.ts): fixed-length Latin-1 style read, no
terminator logic. -/
def readString (buffer : List Nat) (offset length : Nat) : String :=
  String.mk ((List.range length).map (fun j => charOfCode (buffer.getD (offset + j) 0)))

/-! ### src/LinkTargetIDList.ts -/

/-- The enum string value `TargetRoots.MyComputer`. -/
def targetRootMyComputer : String := "MY_COMPUTER"

/-- The single key of `TargetRootGuids` (note: uppercase hex digits). -/
def myComputerGuidKey : String :=
  String.mk ('{' :: "20D04FE0-3AEA-1069-A2D8-08002B30309D".data ++ ['}'])

/-- The FAT/Zip-contents signature string compared against in `getPath`:
"CF" followed by two NUL characters. -/
def zipContentsSignature : String := String.mk ['C', 'F', Char.ofNat 0, Char.ofNat 0]

/-- The regular user-directory signature string compared against in `getPath`. -/
def cfsfSignature : String := "CFSF"

/-- One entry of the ID list (class LinkTargetIDItem). The tag is kept as a
raw byte so that unknown tags fall through the switch exactly as in the
source. -/
structure LinkTargetIDItem where
  itemType : Nat
  value : List Nat
deriving DecidableEq, Repr, Inhabited

/-- The ID list (class LinkTargetIDList): `valid` is never set to false by the
source, `cachedPath` is written by every getPath call. -/
structure LinkTargetIDList where
  valid : Bool
  items : List LinkTargetIDItem
  cachedPath : Option String
deriving DecidableEq, Repr, Inhabited

namespace LinkTargetIDList

/-- One iteration of the switch in `LinkTargetIDList.getPath`, acting on the
accumulated path. Tag constants: 0x1f = 31 RootEntry, 0x2f = 47 DriveLetter,
0x31 = 49 Directory, 0x74 = 116 UserDirectory, 0x32 = 50 File,
0x36 = 54 FileUnicode, 0x35 = 53 DirectoryUnicode. The branches are tested in
source order, so the dedicated Directory branch shadows the unified
File/Directory branch (first match wins), and a tag matching no branch
contributes nothing. Thrown strings are the two throw statements of the
source. -/
def getPathStep (path : String) (item : LinkTargetIDItem) : Except String String :=
  if item.itemType = 31 then
    let guidString := formatGUID (guidFromIDLBytes item.value)
    if guidString = myComputerGuidKey then .ok (path ++ targetRootMyComputer) else .ok path
  else if item.itemType = 47 then
    .ok (path ++ String.mk ((item.value.take 3).map charOfCode))
  else if item.itemType = 49 then
    .ok (path ++ readCString item.value 11 ++ "\\")
  else if item.itemType = 116 then
    let signature := readString item.value 3 4
    if signature = zipContentsSignature then .error "Method not implemented"
    else if signature = cfsfSignature then
      .ok (path ++ "%USERPROFILE%\\" ++ readCString item.value 21 ++ "\\")
    else .error "Invalid signature!"
  else if item.itemType = 50 ∨ item.itemType = 49 ∨ item.itemType = 54 ∨ item.itemType = 53 then
    let isUnicode := item.itemType = 53 ∨ item.itemType = 54
    let isDirectory := item.itemType = 53 ∨ item.itemType = 49
    .ok (path ++ (if isUnicode then readCUnicode item.value 11 else readCString item.value 11) ++
      (if isDirectory then "\\" else ""))
  else .ok path

/-- The loop body of `getPath` over the whole items sequence, starting from
the empty path; a throw aborts the whole computation. -/
def computePath (items : List LinkTargetIDItem) : Except String String :=
  items.foldlM getPathStep ""

/-- Embeds `LinkTargetIDList.getPath`: recompute the path from the current
items (the source has no memoization read; `cachedPath` is only assigned, by
`return (this.cachedPath = path)`), and return it together with the updated
object. -/
def getPath (l : LinkTargetIDList) : Except String (String × LinkTargetIDList) :=
  (computePath l.items).map (fun p => (p, { l with cachedPath := some p }))

/-- The while loop of `LinkTargetIDList.parse`. State: the read cursor
`readOffset` and the signed count `remainingBytes` (an Int, as in JavaScript
it can be driven negative by a malformed size). Per iteration: a
bounds-checked 16-bit read of the item size at the cursor, then the tag byte
and a clamped slice of `shellItemSize` bytes starting after the tag
(`buffer.slice(readOffset + 1, readOffset + shellItemSize + 1)` after the
cursor passed the size field), then the cursor advances by `shellItemSize` in
total and `remainingBytes` drops by `shellItemSize`. The source loop does not
terminate when an item declares size 0; the fuel models that: exhaustion (only
possible on such malformed input) is reported as an error distinct from any
source throw. -/
def parseLoop (buffer : List Nat) : Nat → Nat → Int →
    Except String (List LinkTargetIDItem × Nat × Int)
  | 0, _, _ => .error "loop does not terminate"
  | fuel + 1, readOffset, remainingBytes =>
    if 2 < remainingBytes then
      if readOffset + 2 ≤ buffer.length then
        let shellItemSize := leNat buffer readOffset 2
        match parseLoop buffer fuel (readOffset + shellItemSize)
            (remainingBytes - shellItemSize) with
        | .error e => .error e
        | .ok (items, o, r) =>
          .ok (⟨buffer.getD (readOffset + 2) 0,
                (buffer.drop (readOffset + 3)).take shellItemSize⟩ :: items, o, r)
      else .error "attempt to access memory outside buffer bounds"
    else .ok ([], readOffset, remainingBytes)

/-- Embeds `LinkTargetIDList.parse`: a bounds-checked 2-byte size read
(`buffer.readUIntLE(0, 2)`), then the item loop starting at cursor 2 with
`remainingBytes = size`; the parsed object keeps `valid = true` and no cached
path. Fuel `size + 1` dominates the iteration count of every terminating run
of the source loop, because an iteration leaves the loop unless it decreases
`remainingBytes`, which starts at `size`. -/
def parse (buffer : List Nat) : Except String LinkTargetIDList :=
  if 2 ≤ buffer.length then
    let size := leNat buffer 0 2
    match parseLoop buffer (size + 1) 2 (size : Int) with
    | .error e => .error e
    | .ok (items, _, _) => .ok ⟨true, items, none⟩
  else .error "attempt to access memory outside buffer bounds"

end LinkTargetIDList

/-! ### The shell-link header reader and orchestrator (class LNKParser)

The hot-key helper class lives in a file that is not part of the snapshot;
its constructor is invoked as `new HotKeyFlags(byte, byte)`. -/

/-- Modelled from the spec: src/HotKeyFlags.ts is not in the snapshot; per the
spec a hotkey is "a key code + modifier bitfield", and the header reader
constructs it from the two bytes at offsets 64 and 65. -/
structure HotKeyFlags where
  key : Nat
  modifiers : Nat
deriving DecidableEq, Repr

/-- Embeds class LNKIcon. -/
structure LNKIcon where
  location : String
  iconIndex : Int
deriving DecidableEq, Repr

/-- The target field of an LNKFile: initialized to a plain string, replaced by
the parsed ID list. -/
inductive LNKTarget where
  | str (s : String)
  | idList (l : LinkTargetIDList)
deriving DecidableEq, Repr

/-- Embeds class LNKFile (only the fields the parser populates; dates carry
the millisecond value of the Date object). -/
structure LNKFile where
  headerSize : Int
  linkCLSID : List Int
  linkFlags : Int
  targetAttributeFlags : Int
  targetCreationDate : ℚ
  targetAccessDate : ℚ
  targetWriteDate : ℚ
  targetFileSize : Nat
  valid : Bool
  icon : Option LNKIcon
  showCommand : Nat
  hotKey : HotKeyFlags
  target : LNKTarget
deriving DecidableEq, Repr

/-- Embeds class LNKParser: the buffer and the instance-held read cursor. -/
structure LNKParser where
  buffer : List Nat
  offset : Nat
deriving DecidableEq, Repr

/-- The constant VALID_LINK_CLSID: the number array of
{00021401-0000-0000-C000-000000000046} in the guidFromIDLBytes layout. -/
def VALID_LINK_CLSID : List Int := [136193, 0, 0, 192, 0, 0, 0, 0, 0, 0, 70]

namespace LNKParser

/-- Embeds `LNKParser.readGUID_IDL`: a clamped 16-byte slice at `location`
decoded by guidFromIDLBytes; the read cursor advances only when `advance` is
set (the header reader always passes false). -/
def readGUID_IDL (p : LNKParser) (advance : Bool) (location : Nat) : List Int × LNKParser :=
  (guidFromIDLBytes ((p.buffer.drop location).take 16),
    if advance then { p with offset := p.offset + 16 } else p)

/-- Embeds `LNKParser.readFileTime`: a signed 64-bit little-endian read fed to
dateFromFILETIME. The `advance` parameter of the source is ignored by its
body; the bounds check of readBigInt64LE is subsumed by the caller's guard
(see parseHeader). -/
def readFileTime (tzMin : ℚ) (p : LNKParser) (advance : Bool) (location : Nat) : ℚ :=
  dateFromFILETIME tzMin (jsToInt64 (leNat p.buffer location 8))

/-- The show-command normalization of parseHeader. TypeScript numeric enums
compile to objects holding both names and values, so
`Object.values(ShowCommands).includes(v)` over a number v holds exactly when
v is one of the numeric constants 1 (Normal), 3 (Maximized),
7 (MinimizedWithoutFocus); any other value is replaced by Normal = 1. -/
def normalizeShowCommand (v : Nat) : Nat :=
  if v = 1 ∨ v = 3 ∨ v = 7 then v else 1

/-- The LNKFile record parseHeader assembles from the fixed 76-byte layout at
`off`, given the already-parsed target list `tl2` (with its path cached). The
field reads are the source's reads in order: int32 size at +0, 16-byte CLSID
at +4, int32 link flags at +20, int32 attribute flags at +24, three 64-bit
file times at +28 / +36 / +44, uint32 target size at +52, int32 icon index at
+56 (stored in a fresh LNKIcon with empty location), uint32 show command at
+60 (normalized), the two hot-key bytes at +64 and +65, and 10 reserved bytes
skipped. `valid` states that the declared size is 76 and the CLSID equals
VALID_LINK_CLSID. -/
def headerRecordOf (tzMin : ℚ) (buf : List Nat) (off : Nat) (tl2 : LinkTargetIDList) : LNKFile :=
  { headerSize := jsToInt32 (leNat buf off 4)
    linkCLSID := (readGUID_IDL ⟨buf, off⟩ false (off + 4)).1
    linkFlags := jsToInt32 (leNat buf (off + 20) 4)
    targetAttributeFlags := jsToInt32 (leNat buf (off + 24) 4)
    targetCreationDate := readFileTime tzMin ⟨buf, off⟩ false (off + 28)
    targetAccessDate := readFileTime tzMin ⟨buf, off⟩ false (off + 36)
    targetWriteDate := readFileTime tzMin ⟨buf, off⟩ false (off + 44)
    targetFileSize := leNat buf (off + 52) 4
    valid := (jsToInt32 (leNat buf off 4) == 76) &&
      ((readGUID_IDL ⟨buf, off⟩ false (off + 4)).1 == VALID_LINK_CLSID)
    icon := some { location := "", iconIndex := jsToInt32 (leNat buf (off + 56) 4) }
    showCommand := normalizeShowCommand (leNat buf (off + 60) 4)
    hotKey := { key := buf.getD (off + 64) 0, modifiers := buf.getD (off + 65) 0 }
    target := LNKTarget.idList tl2 }

/-- Embeds `LNKParser.parseHeader`. Bounds: each Node `read*LE` call throws on
a read past the end; over the fixed header the checks of the successive reads
(int32 at +0 through uint32 at +60) are jointly equivalent to
`offset + 64 ≤ length`, checked once here (single-byte indexing never
throws). The cursor state is threaded as the source does: `readGUID_IDL` is
called with advance = false, `readFileTime` ignores its advance flag, and the
trailing `readOffset += VALID_HEADER_SIZE` mutates only the local variable,
so the instance cursor is never written. After the fixed 76 bytes the rest of
the buffer goes to `LinkTargetIDList.parse` and its path is computed eagerly
(the result string is discarded; the call's effect is the cached path on the
target object). -/
def parseHeader (tzMin : ℚ) (p : LNKParser) (advance : Bool) :
    Except String (LNKFile × LNKParser) :=
  let p1 := (readGUID_IDL p false (p.offset + 4)).2
  if p.offset + 64 ≤ p.buffer.length then
    match LinkTargetIDList.parse (p1.buffer.drop (p1.offset + 76)) with
    | .error e => .error e
    | .ok tl =>
      match LinkTargetIDList.getPath tl with
      | .error e => .error e
      | .ok (_, tl2) => .ok (headerRecordOf tzMin p1.buffer p1.offset tl2, p1)
  else .error "attempt to access memory outside buffer bounds"

/-- Embeds `LNKParser.parse`: parseHeader with advance = true over the whole
buffer. -/
def parse (tzMin : ℚ) (p : LNKParser) : Except String (LNKFile × LNKParser) :=
  parseHeader tzMin p true

end LNKParser

/-! ### Specification-side definitions used to state the claims -/

/-- Value of one lowercase hex digit character ('0'..'9', 'a'..'f'). -/
def hexVal (c : Char) : Nat :=
  if 97 ≤ c.toNat then c.toNat - 87 else c.toNat - 48

/-- Whether a character is a lowercase hexadecimal digit. -/
def isLowerHexDigit (c : Char) : Bool :=
  (decide (48 ≤ c.toNat) && decide (c.toNat ≤ 57)) ||
    (decide (97 ≤ c.toNat) && decide (c.toNat ≤ 102))

/-- Positions of the 32 hex digits inside a 38-character registry-form GUID
string (brace, 8 digits, hyphen, 4, hyphen, 4, hyphen, 4, hyphen, 12,
brace). -/
def guidDigitPositions : List Nat :=
  [1, 2, 3, 4, 5, 6, 7, 8, 10, 11, 12, 13, 15, 16, 17, 18, 20, 21, 22, 23,
   25, 26, 27, 28, 29, 30, 31, 32, 33, 34, 35, 36]

/-- Decides the shape clause of the GUID round-trip property: 38 characters,
braces at the ends, hyphens at positions 9, 14, 19, 24 and lowercase hex
digits everywhere else. -/
def guidFormShape (s : String) : Bool :=
  (s.data.length == 38) && (s.data.getD 0 ' ' == '{') && (s.data.getD 37 ' ' == '}') &&
    (([9, 14, 19, 24] : List Nat).all (fun i => s.data.getD i ' ' == '-')) &&
    (guidDigitPositions.all (fun i => isLowerHexDigit (s.data.getD i ' ')))

/-- The byte encoded by the hex digits at string positions i (high nibble) and
j (low nibble). -/
def hexPairAt (l : List Char) (i j : Nat) : Nat :=
  16 * hexVal (l.getD i ' ') + hexVal (l.getD j ' ')

/-- Reads the 32 hex digits of a registry-form GUID string back as 16 bytes in
wire order: the first display field little-endian 32-bit, the next two
display fields little-endian 16-bit, the final 2 + 12 digits verbatim. -/
def readBackBytes (s : String) : List Nat :=
  [hexPairAt s.data 7 8, hexPairAt s.data 5 6, hexPairAt s.data 3 4, hexPairAt s.data 1 2,
   hexPairAt s.data 12 13, hexPairAt s.data 10 11,
   hexPairAt s.data 17 18, hexPairAt s.data 15 16,
   hexPairAt s.data 20 21, hexPairAt s.data 22 23,
   hexPairAt s.data 25 26, hexPairAt s.data 27 28, hexPairAt s.data 29 30,
   hexPairAt s.data 31 32, hexPairAt s.data 33 34, hexPairAt s.data 35 36]

/-- Declared size of an abstract ID-list item (tag, payload): payload plus the
2 size bytes and the tag byte. -/
def itemSize (it : Nat × List Nat) : Nat := it.2.length + 3

/-- Wire encoding of one ID-list item: 2-byte little-endian size (counting
itself), tag byte, payload. -/
def encodeItem (it : Nat × List Nat) : List Nat :=
  itemSize it % 256 :: itemSize it / 256 :: it.1 :: it.2

/-- Wire encoding of a sequence of ID-list items. -/
def encodeItems (items : List (Nat × List Nat)) : List Nat :=
  (items.map encodeItem).flatten

/-- The declared total size S of a well-formed ID list: the item sizes plus
the 2-byte terminator (the size field itself is not counted). -/
def totalIdSize (items : List (Nat × List Nat)) : Nat :=
  (items.map itemSize).sum + 2

/-- A well-formed ID-list buffer: 2-byte little-endian size prefix, the
encoded items, the 2-byte zero terminator, and arbitrary trailing bytes. -/
def idListBuffer (items : List (Nat × List Nat)) (rest : List Nat) : List Nat :=
  totalIdSize items % 256 :: totalIdSize items / 256 :: (encodeItems items ++ [0, 0] ++ rest)

/-- The items `LinkTargetIDList.parse` actually produces on a well-formed
buffer: each holds its tag and its payload followed by the next 3 bytes of
the stream (clamped at the end), because the slice taken by the source is
`shellItemSize` bytes long, 3 more than the payload. -/
def expectedItems : List (Nat × List Nat) → List Nat → List LinkTargetIDItem
  | [], _ => []
  | it :: its, rest =>
    ⟨it.1, it.2 ++ (encodeItems its ++ [0, 0] ++ rest).take 3⟩ :: expectedItems its rest

/-- The first 20 bytes of a header that parseHeader marks valid: 76 as a
little-endian int32, then the 16 wire bytes of
{00021401-0000-0000-C000-000000000046}. -/
def canonicalHeadBytes : List Nat :=
  [76, 0, 0, 0, 1, 20, 2, 0, 0, 0, 0, 0, 192, 0, 0, 0, 0, 0, 0, 70]

/-- The synthetic end-to-end buffer of the spec: a valid 76-byte header (zero
flags, attributes, timestamps, target size, icon index; show-command 1; zero
hotkey; zero reserved bytes) followed by an empty ID list with size prefix
2. -/
def endToEndBuffer : List Nat :=
  canonicalHeadBytes ++ List.replicate 40 0 ++ [1, 0, 0, 0] ++ List.replicate 12 0 ++ [2, 0]

/-! ### Helper lemmas about byte lists -/

theorem getD_lt_256 (l : List Nat) (hb : ∀ b ∈ l, b < 256) (j : Nat) : l.getD j 0 < 256 := by
  by_cases h : j < l.length
  · exact hb _ (by rw [List.getD_eq_getElem l 0 h]; exact List.getElem_mem h)
  · rw [List.getD_eq_default _ _ (by omega)]; omega

theorem getD_set_ne (l : List Nat) (i j a : Nat) (h : i ≠ j) :
    (l.set i a).getD j 0 = l.getD j 0 := by
  simp [List.getD, List.getElem?_set_ne h]

theorem getD_set_self (l : List Nat) (i a : Nat) (h : i < l.length) :
    (l.set i a).getD i 0 = a := by
  simp [List.getD, List.getElem?_set_self h]

theorem drop_set_of_lt (l : List Nat) (i n a : Nat) (h : i < n) :
    (l.set i a).drop n = l.drop n := by
  apply List.ext_getElem?
  intro j
  rw [List.getElem?_drop, List.getElem?_drop, List.getElem?_set_ne (by omega)]

theorem getD_drop (l : List Nat) (m j : Nat) : (l.drop m).getD j 0 = l.getD (m + j) 0 := by
  induction m generalizing l with
  | zero => simp
  | succ m ih =>
    cases l with
    | nil => simp
    | cons x xs => simp [Nat.succ_add, ih xs]

theorem getD_take (l : List Nat) (n j : Nat) (h : j < n) :
    (l.take n).getD j 0 = l.getD j 0 := by
  induction n generalizing l j with
  | zero => omega
  | succ n ih =>
    cases l with
    | nil => simp
    | cons x xs =>
      cases j with
      | zero => simp
      | succ j => simpa using ih xs j (by omega)

theorem leNat_set_of_lt (l : List Nat) (i a j n : Nat) (h : i < j) :
    leNat (l.set i a) j n = leNat l j n := by
  induction n generalizing j with
  | zero => rfl
  | succ n ih => rw [leNat, leNat, getD_set_ne _ _ _ _ (by omega), ih (j + 1) (by omega)]

theorem leNat_lt (l : List Nat) (hb : ∀ b ∈ l, b < 256) (i n : Nat) :
    leNat l i n < 256 ^ n := by
  induction n generalizing i with
  | zero => simp [leNat]
  | succ n ih =>
    rw [leNat]
    have h1 := getD_lt_256 l hb i
    have h2 := ih (i + 1)
    calc l.getD i 0 + 256 * leNat l (i + 1) n
        ≤ 255 + 256 * (256 ^ n - 1) := by
          have : leNat l (i + 1) n ≤ 256 ^ n - 1 := by omega
          omega
      _ < 256 ^ (n + 1) := by
          have : 1 ≤ 256 ^ n := Nat.one_le_pow _ _ (by omega)
          rw [pow_succ]
          omega

theorem exists_explicit16 (l : List Nat) (h : l.length = 16) :
    ∃ a0 a1 a2 a3 a4 a5 a6 a7 a8 a9 a10 a11 a12 a13 a14 a15 : Nat,
      l = [a0, a1, a2, a3, a4, a5, a6, a7, a8, a9, a10, a11, a12, a13, a14, a15] := by
  rcases l with _ | ⟨a0, _ | ⟨a1, _ | ⟨a2, _ | ⟨a3, _ | ⟨a4, _ | ⟨a5, _ | ⟨a6, _ | ⟨a7,
    _ | ⟨a8, _ | ⟨a9, _ | ⟨a10, _ | ⟨a11, _ | ⟨a12, _ | ⟨a13, _ | ⟨a14, _ | ⟨a15,
    _ | ⟨a16, l⟩⟩⟩⟩⟩⟩⟩⟩⟩⟩⟩⟩⟩⟩⟩⟩⟩ <;>
    first
      | exact ⟨a0, a1, a2, a3, a4, a5, a6, a7, a8, a9, a10, a11, a12, a13, a14, a15, rfl⟩
      | (simp at h)

/-- Every character hexToChar emits is a lowercase hex digit. -/
theorem isLowerHexDigit_hexToChar (x : Int) : isLowerHexDigit (hexToChar x) = true := by
  have h16 : (x % 16).toNat < 16 := by omega
  simp only [hexToChar]
  generalize (x % 16).toNat = m at h16 ⊢
  interval_cases m <;> decide

/-- hexVal inverts hexToChar on the low nibble. -/
theorem hexVal_hexToChar (x : Int) : hexVal (hexToChar x) = (x % 16).toNat := by
  have h16 : (x % 16).toNat < 16 := by omega
  simp only [hexToChar, hexVal]
  generalize (x % 16).toNat = m at h16 ⊢
  interval_cases m <;> decide

theorem getD_append_right_add (pre l : List Nat) (k : Nat) :
    (pre ++ l).getD (pre.length + k) 0 = l.getD k 0 := by
  rw [← getD_drop _ pre.length k, List.drop_left]

theorem drop_append_right_add (pre l : List Nat) (k : Nat) :
    (pre ++ l).drop (pre.length + k) = l.drop k := by
  rw [← List.drop_drop, List.drop_left]

/-! ### Claims C3 and C4: the ID-list loop on well-formed buffers -/

/-- The loop of LinkTargetIDList.parse walks a well-formed encoded item
sequence one item per iteration: starting at the cursor `pre.length` with
`sum of item sizes + 2` bytes remaining, it returns the expected items, the
cursor advanced by exactly the sum of the item sizes, and remaining count 2
(the terminator), provided each declared size fits 16 bits and the fuel
exceeds the item count. -/
theorem parseLoop_encoded (items : List (Nat × List Nat)) (pre rest : List Nat) (fuel : Nat)
    (hsz : ∀ it ∈ items, itemSize it ≤ 65535)
    (hfuel : items.length < fuel) :
    LinkTargetIDList.parseLoop (pre ++ (encodeItems items ++ [0, 0] ++ rest)) fuel pre.length
      (((items.map itemSize).sum : Int) + 2)
      = .ok (expectedItems items rest, pre.length + (items.map itemSize).sum, 2) := by
  induction items generalizing pre fuel with
  | nil =>
    obtain ⟨f, rfl⟩ : ∃ f, fuel = f + 1 := ⟨fuel - 1, by omega⟩
    simp [LinkTargetIDList.parseLoop, expectedItems, encodeItems]
  | cons it its ih =>
    obtain ⟨f, rfl⟩ : ∃ f, fuel = f + 1 := ⟨fuel - 1, by omega⟩
    have hit : itemSize it ≤ 65535 := hsz it (by simp)
    have hit3 : 3 ≤ itemSize it := by simp [itemSize]
    have hsz' : ∀ x ∈ its, itemSize x ≤ 65535 := fun x hx => hsz x (by simp [hx])
    have hbuf : pre ++ (encodeItems (it :: its) ++ [0, 0] ++ rest) =
        pre ++ (itemSize it % 256 :: itemSize it / 256 :: it.1 ::
          (it.2 ++ (encodeItems its ++ [0, 0] ++ rest))) := by
      simp [encodeItems, encodeItem]
    have hpos : 0 < (List.map itemSize (it :: its)).sum := by
      rw [List.map_cons, List.sum_cons]
      omega
    rw [hbuf]
    simp only [LinkTargetIDList.parseLoop]
    rw [if_pos (by omega)]
    rw [if_pos (by simp only [List.length_append, List.length_cons]; omega)]
    have hsize : leNat (pre ++ (itemSize it % 256 :: itemSize it / 256 :: it.1 ::
        (it.2 ++ (encodeItems its ++ [0, 0] ++ rest)))) pre.length 2 = itemSize it := by
      rw [leNat, leNat, leNat]
      have e0 := getD_append_right_add pre (itemSize it % 256 :: itemSize it / 256 :: it.1 ::
        (it.2 ++ (encodeItems its ++ [0, 0] ++ rest))) 0
      have e1 := getD_append_right_add pre (itemSize it % 256 :: itemSize it / 256 :: it.1 ::
        (it.2 ++ (encodeItems its ++ [0, 0] ++ rest))) 1
      simp only [Nat.add_zero] at e0
      rw [e0, e1]
      simp only [List.getD_cons_zero, List.getD_cons_succ]
      omega
    rw [hsize]
    have htag : (pre ++ (itemSize it % 256 :: itemSize it / 256 :: it.1 ::
        (it.2 ++ (encodeItems its ++ [0, 0] ++ rest)))).getD (pre.length + 2) 0 = it.1 := by
      rw [getD_append_right_add]
      simp
    have hvalue : ((pre ++ (itemSize it % 256 :: itemSize it / 256 :: it.1 ::
        (it.2 ++ (encodeItems its ++ [0, 0] ++ rest)))).drop (pre.length + 3)).take
          (itemSize it) =
        it.2 ++ (encodeItems its ++ [0, 0] ++ rest).take 3 := by
      rw [drop_append_right_add]
      simp only [List.drop_succ_cons, List.drop_zero]
      have : itemSize it = it.2.length + 3 := rfl
      rw [this, List.take_append]
    have hrec : LinkTargetIDList.parseLoop (pre ++ (itemSize it % 256 :: itemSize it / 256 ::
        it.1 :: (it.2 ++ (encodeItems its ++ [0, 0] ++ rest)))) f (pre.length + itemSize it)
        ((((it :: its).map itemSize).sum : Int) + 2 - (itemSize it : Int)) =
        .ok (expectedItems its rest,
          (pre.length + itemSize it) + (its.map itemSize).sum, 2) := by
      have hpre2 : pre ++ (itemSize it % 256 :: itemSize it / 256 :: it.1 ::
          (it.2 ++ (encodeItems its ++ [0, 0] ++ rest))) =
          (pre ++ encodeItem it) ++ (encodeItems its ++ [0, 0] ++ rest) := by
        simp [encodeItem]
      have hlen2 : pre.length + itemSize it = (pre ++ encodeItem it).length := by
        simp only [List.length_append, encodeItem, List.length_cons, itemSize]
      have hrem : ((((it :: its).map itemSize).sum : Int) + 2 - (itemSize it : Int)) =
          (((its.map itemSize).sum : Int) + 2) := by
        push_cast [List.map_cons, List.sum_cons]
        ring
      rw [hpre2, hlen2, hrem, ih (pre ++ encodeItem it) f hsz'
        (by simp only [List.length_cons] at hfuel; omega)]
    rw [hrec, htag, hvalue]
    simp only [expectedItems, List.map_cons, List.sum_cons, Nat.add_assoc]

theorem length_le_sum_itemSize (items : List (Nat × List Nat)) :
    items.length ≤ (items.map itemSize).sum := by
  induction items with
  | nil => simp
  | cons it its ih =>
    simp only [List.map_cons, List.sum_cons, List.length_cons]
    have h3 : 3 ≤ itemSize it := by simp [itemSize]
    omega

theorem encodeItems_length (items : List (Nat × List Nat)) :
    (encodeItems items).length = (items.map itemSize).sum := by
  induction items with
  | nil => simp [encodeItems]
  | cons it its ih =>
    simp only [encodeItems, List.map_cons, List.flatten_cons, List.length_append,
      List.sum_cons] at ih ⊢
    have : (encodeItem it).length = itemSize it := by
      simp [encodeItem, itemSize]
    omega

theorem expectedItems_length (items : List (Nat × List Nat)) (rest : List Nat) :
    (expectedItems items rest).length = items.length := by
  induction items with
  | nil => rfl
  | cons it its ih => simp [expectedItems, ih]

/-- LinkTargetIDList.parse on a well-formed encoded buffer returns the
expected items (valid stays true, no cached path). -/
theorem parse_encoded (items : List (Nat × List Nat)) (rest : List Nat)
    (hsz : ∀ it ∈ items, itemSize it ≤ 65535)
    (hS : totalIdSize items ≤ 65535) :
    LinkTargetIDList.parse (idListBuffer items rest) =
      .ok ⟨true, expectedItems items rest, none⟩ := by
  have hlen2 : 2 ≤ (idListBuffer items rest).length := by simp [idListBuffer]
  have hsize : leNat (idListBuffer items rest) 0 2 = totalIdSize items := by
    simp only [idListBuffer, leNat, List.getD_cons_zero, List.getD_cons_succ]
    omega
  have hfuel : items.length < totalIdSize items + 1 := by
    have := length_le_sum_itemSize items
    simp only [totalIdSize]
    omega
  have hloop := parseLoop_encoded items
    [totalIdSize items % 256, totalIdSize items / 256] rest (totalIdSize items + 1) hsz
    (by simpa using hfuel)
  simp only [List.cons_append, List.nil_append, List.length_cons, List.length_nil] at hloop
  have harg : ((totalIdSize items : Int)) = ((items.map itemSize).sum : Int) + 2 := by
    simp only [totalIdSize]
    push_cast
    ring
  simp only [LinkTargetIDList.parse]
  rw [if_pos hlen2, hsize, harg]
  simp only [idListBuffer, List.cons_append, List.nil_append]
  rw [hloop]

/-- C3: on every well-formed ID-list buffer (2-byte size prefix S, items of
size at least 3 each — the encoding forces size = payload + 3 ≥ 3 — summing
with the 2-byte terminator to S), the loop consumes one item per iteration
(the parsed list has one entry per encoded item), terminates with remaining
count 2 (which is ≤ 2, the loop guard), the final cursor is the size prefix
plus the sum of the item sizes, and the bytes consumed — final cursor plus
the 2 terminator bytes — equal the sum of the item sizes plus the 2
size-prefix bytes plus the 2 terminator bytes, the length of the whole
well-formed buffer. -/
theorem c3_idlist_traversal (items : List (Nat × List Nat)) (rest : List Nat)
    (hsz : ∀ it ∈ items, itemSize it ≤ 65535)
    (hS : totalIdSize items ≤ 65535) :
    LinkTargetIDList.parseLoop (idListBuffer items rest) (totalIdSize items + 1) 2
        ((totalIdSize items : Int)) =
      .ok (expectedItems items rest, 2 + (items.map itemSize).sum, 2) ∧
    LinkTargetIDList.parse (idListBuffer items rest) =
      .ok ⟨true, expectedItems items rest, none⟩ ∧
    (expectedItems items rest).length = items.length ∧
    (2 : Int) ≤ 2 ∧
    (2 + (items.map itemSize).sum) + 2 = (items.map itemSize).sum + 2 + 2 ∧
    (2 + (items.map itemSize).sum) + 2 = (idListBuffer items []).length := by
  refine ⟨?_, parse_encoded items rest hsz hS, expectedItems_length items rest,
    le_refl 2, by omega, ?_⟩
  · have hloop := parseLoop_encoded items
      [totalIdSize items % 256, totalIdSize items / 256] rest (totalIdSize items + 1) hsz
      (by
        have := length_le_sum_itemSize items
        simp only [List.length_cons, List.length_nil, totalIdSize]
        omega)
    simp only [List.cons_append, List.nil_append, List.length_cons, List.length_nil] at hloop
    have harg : ((totalIdSize items : Int)) = ((items.map itemSize).sum : Int) + 2 := by
      simp only [totalIdSize]
      push_cast
      ring
    rw [harg]
    simpa only [idListBuffer, List.cons_append, List.nil_append] using hloop
  · have hlen : (idListBuffer items []).length =
        2 + (encodeItems items).length + 2 := by
      simp [idListBuffer]
      omega
    have henc := encodeItems_length items
    omega

/-- C3 witness: a one-item well-formed list (tag 0x2f, payload "C:\"), with
the hypotheses checked by evaluation. -/
theorem c3_idlist_traversal_witness :
    LinkTargetIDList.parse (idListBuffer [(47, [67, 58, 92])] []) =
      .ok ⟨true, expectedItems [(47, [67, 58, 92])] [], none⟩ ∧
    (expectedItems [(47, [67, 58, 92])] []).length = 1 := by
  have h := c3_idlist_traversal [(47, [67, 58, 92])] [] (by decide) (by decide)
  exact ⟨h.2.1, h.2.2.1⟩

/-- C4 counterexample: on the well-formed two-item buffer below (both items
tag 0x2f with 3-byte payloads, item size 6), the first parsed item holds
6 bytes, not itemSize - 3 = 3: its value is the payload [67, 58, 92] followed
by [6, 0, 47] — the size field and tag of the following item — because the
source slices `shellItemSize` bytes after the tag instead of
`shellItemSize - 3`. -/
theorem c4_value_overshoot :
    LinkTargetIDList.parse (idListBuffer [(47, [67, 58, 92]), (47, [68, 58, 92])] []) =
      .ok ⟨true, [⟨47, [67, 58, 92, 6, 0, 47]⟩, ⟨47, [68, 58, 92, 0, 0]⟩], none⟩ ∧
    ([67, 58, 92, 6, 0, 47] : List Nat) ≠ [67, 58, 92] := by
  exact ⟨by decide, by decide⟩

/-- C4 amended: each parsed item holds the item's tag, and its value starts
with the itemSize - 3 payload bytes but continues with up to 3 extra bytes
taken from the stream right after the payload (the next item's size field and
tag, or the terminator, clamped at the end of the buffer). -/
theorem c4_item_values (items : List (Nat × List Nat)) (rest : List Nat)
    (hsz : ∀ it ∈ items, itemSize it ≤ 65535)
    (hS : totalIdSize items ≤ 65535) :
    ∃ l, LinkTargetIDList.parse (idListBuffer items rest) = .ok l ∧
      List.Forall₂ (fun it pit => pit.itemType = it.1 ∧
        pit.value.take (itemSize it - 3) = it.2 ∧
        ∃ extra, pit.value = it.2 ++ extra ∧ extra.length ≤ 3) items l.items := by
  refine ⟨⟨true, expectedItems items rest, none⟩, parse_encoded items rest hsz hS, ?_⟩
  clear hsz hS
  induction items with
  | nil => simp [expectedItems]
  | cons it its ih =>
    simp only [expectedItems]
    refine List.Forall₂.cons ⟨rfl, ?_, ?_⟩ ih
    · have h3 : itemSize it - 3 = it.2.length := by simp [itemSize]
      rw [h3, List.take_left]
    · exact ⟨(encodeItems its ++ [0, 0] ++ rest).take 3, rfl, by
        simp [List.length_take]⟩

/-- C4 witness: the amended statement applied to the two-item buffer of the
counterexample. -/
theorem c4_item_values_witness :
    ∃ l, LinkTargetIDList.parse (idListBuffer [(47, [67, 58, 92]), (47, [68, 58, 92])] []) =
        .ok l ∧
      List.Forall₂ (fun it pit => pit.itemType = it.1 ∧
          pit.value.take (itemSize it - 3) = it.2 ∧
          ∃ extra, pit.value = it.2 ++ extra ∧ extra.length ≤ 3)
        [(47, [67, 58, 92]), (47, [68, 58, 92])] l.items :=
  c4_item_values [(47, [67, 58, 92]), (47, [68, 58, 92])] [] (by decide) (by decide)

/-! ### Claim C5: the GUID decode/format round trip -/

/-- C5: formatting the GUID decoded from any 16 bytes yields a registry-form
string (38 characters: braces, hyphens at 9/14/19/24, lowercase hex digits
elsewhere), and reading the 32 hex digits back as bytes in wire order (first
display field as a little-endian 32-bit value, the next two display fields as
little-endian 16-bit values, tail verbatim) recovers the original bytes. -/
theorem c5_guid_format_roundtrip (bytes : List Nat) (hlen : bytes.length = 16)
    (hb : ∀ b ∈ bytes, b < 256) :
    guidFormShape (formatGUID (guidFromIDLBytes bytes)) = true ∧
    readBackBytes (formatGUID (guidFromIDLBytes bytes)) = bytes := by
  obtain ⟨b0, b1, b2, b3, b4, b5, b6, b7, b8, b9, b10, b11, b12, b13, b14, b15, rfl⟩ :=
    exists_explicit16 bytes hlen
  have hb0 : b0 < 256 := hb b0 (by simp)
  have hb1 : b1 < 256 := hb b1 (by simp)
  have hb2 : b2 < 256 := hb b2 (by simp)
  have hb3 : b3 < 256 := hb b3 (by simp)
  have hb4 : b4 < 256 := hb b4 (by simp)
  have hb5 : b5 < 256 := hb b5 (by simp)
  have hb6 : b6 < 256 := hb b6 (by simp)
  have hb7 : b7 < 256 := hb b7 (by simp)
  have hb8 : b8 < 256 := hb b8 (by simp)
  have hb9 : b9 < 256 := hb b9 (by simp)
  have hb10 : b10 < 256 := hb b10 (by simp)
  have hb11 : b11 < 256 := hb b11 (by simp)
  have hb12 : b12 < 256 := hb b12 (by simp)
  have hb13 : b13 < 256 := hb b13 (by simp)
  have hb14 : b14 < 256 := hb b14 (by simp)
  have hb15 : b15 < 256 := hb b15 (by simp)
  constructor
  · simp only [formatGUID, guidFromIDLBytes, pairNibbles]
    simp [guidFormShape, guidDigitPositions, isLowerHexDigit_hexToChar]
  · simp only [formatGUID, guidFromIDLBytes, pairNibbles]
    simp only [readBackBytes, hexPairAt]
    simp only [List.getD_cons_zero, List.getD_cons_succ, List.drop_succ_cons,
      List.drop_zero, List.map_cons, List.map_nil, List.cons_append, List.nil_append,
      List.append_nil, List.take_succ_cons, List.take_zero]
    simp [hexVal_hexToChar]
    simp only [jsToInt32]
    have hu : b3 * 16777216 + b2 * 65536 + b1 * 256 + b0 < 4294967296 := by omega
    rw [Nat.mod_eq_of_lt hu]
    split_ifs with hcase <;> omega

/-- C5 witness: the round trip on a concrete 16-byte input. -/
theorem c5_guid_roundtrip_witness :
    guidFormShape (formatGUID (guidFromIDLBytes
      [239, 190, 173, 222, 52, 18, 120, 86, 154, 188, 222, 240, 17, 34, 51, 68])) = true ∧
    readBackBytes (formatGUID (guidFromIDLBytes
      [239, 190, 173, 222, 52, 18, 120, 86, 154, 188, 222, 240, 17, 34, 51, 68])) =
      [239, 190, 173, 222, 52, 18, 120, 86, 154, 188, 222, 240, 17, 34, 51, 68] :=
  c5_guid_format_roundtrip
    [239, 190, 173, 222, 52, 18, 120, 86, 154, 188, 222, 240, 17, 34, 51, 68]
    (by decide) (by decide)

/-! ### Claim C2: the FILETIME conversion -/

/-- C2 counterexample: the claim states the decoder subtracts
116,444,736,000,000 ms; on the tick count 0 (with timezone offset 0) the code
yields -11,644,473,600,000, not -116,444,736,000,000, so the claimed equation
decode(t) = t/10000 - 116444736000000 - z fails at t = 0, z = 0. -/
theorem c2_filetime_claim_false_at_zero :
    dateFromFILETIME 0 0 = -11644473600000 ∧
      ¬ dateFromFILETIME 0 0 = (0 : ℚ) / 10000 - 116444736000000 - 0 := by
  constructor
  · norm_num [dateFromFILETIME]
  · norm_num [dateFromFILETIME]

/-- C2 amended: for every 64-bit tick count t the decoder returns
t / 10000 - 11,644,473,600,000 - z where z is the local timezone offset in
milliseconds (tzMin minutes, i.e. z = tzMin * 60000); the epoch constant of
the claim carried an extra factor of ten. Settled over exact arithmetic (the
source computes on IEEE doubles). -/
theorem c2_dateFromFILETIME_formula (t : Int) (tzMin : ℚ) :
    dateFromFILETIME tzMin t = (t : ℚ) / 10000 - 11644473600000 - tzMin * 60000 := by
  unfold dateFromFILETIME
  ring

/-! ### Claim C7: getPath recomputation -/

/-- C7 counterexample: compute the path of a one-item DriveLetter list (the
call caches "C:\"), then mutate the items to be empty; the second getPath
call returns "", not the originally computed "C:\", so the path is
recomputed, contradicting the claim. -/
theorem c7_getPath_after_mutation :
    LinkTargetIDList.getPath ⟨true, [⟨47, [67, 58, 92]⟩], none⟩ =
      .ok ("C:\\", ⟨true, [⟨47, [67, 58, 92]⟩], some "C:\\"⟩) ∧
    LinkTargetIDList.getPath ⟨true, [], some "C:\\"⟩ = .ok ("", ⟨true, [], some ""⟩) ∧
    ("" : String) ≠ "C:\\" := by
  refine ⟨by decide, by decide, by decide⟩

/-- C7 amended: getPath never reads the cache; every call recomputes the path
from the current items (so a second call after mutating the items returns the
path of the mutated sequence), and stores the newly computed path in
cachedPath. -/
theorem c7_getPath_always_recomputes (l : LinkTargetIDList) (its2 : List LinkTargetIDItem)
    (p : String) (l1 : LinkTargetIDList)
    (h : LinkTargetIDList.getPath l = .ok (p, l1)) :
    l1 = { l with cachedPath := some p } ∧
    (∀ c : Option String, LinkTargetIDList.getPath { l with cachedPath := c } =
      (LinkTargetIDList.computePath l.items).map
        (fun q => (q, { l with cachedPath := some q }))) ∧
    LinkTargetIDList.getPath { l1 with items := its2 } =
      (LinkTargetIDList.computePath its2).map
        (fun q => (q, { l1 with items := its2, cachedPath := some q })) := by
  refine ⟨?_, fun c => rfl, rfl⟩
  unfold LinkTargetIDList.getPath at h
  cases hc : LinkTargetIDList.computePath l.items with
  | error e => rw [hc] at h; simp [Except.map] at h
  | ok q =>
    rw [hc] at h
    simp only [Except.map, Except.ok.injEq, Prod.mk.injEq] at h
    rw [← h.2, ← h.1]

/-- C7 witness: the amended theorem applied to the concrete one-item list,
yielding the recomputed (empty) path of the mutated list. -/
theorem c7_getPath_witness :
    LinkTargetIDList.getPath ⟨true, [], some "C:\\"⟩ = .ok ("", ⟨true, [], some ""⟩) := by
  have h := c7_getPath_always_recomputes ⟨true, [⟨47, [67, 58, 92]⟩], none⟩ []
    "C:\\" ⟨true, [⟨47, [67, 58, 92]⟩], some "C:\\"⟩ (by decide)
  have h2 := h.2.2
  rw [h2]
  decide

/-! ### parseHeader success characterization -/

/-- parseHeader succeeds exactly on the guard plus a successful target parse
and path computation, returning the fixed-layout record and the unchanged
parser state. Construction direction. -/
theorem parseHeader_ok_of (tzMin : ℚ) (p : LNKParser) (adv : Bool)
    (tl : LinkTargetIDList) (path : String) (tl2 : LinkTargetIDList)
    (hlen : p.offset + 64 ≤ p.buffer.length)
    (hparse : LinkTargetIDList.parse (p.buffer.drop (p.offset + 76)) = .ok tl)
    (hpath : LinkTargetIDList.getPath tl = .ok (path, tl2)) :
    LNKParser.parseHeader tzMin p adv =
      .ok (LNKParser.headerRecordOf tzMin p.buffer p.offset tl2, p) := by
  simp only [LNKParser.parseHeader, LNKParser.readGUID_IDL, Bool.false_eq_true,
    if_false, if_pos hlen, hparse, hpath]

/-- parseHeader success characterization, inversion direction. -/
theorem parseHeader_ok_iff (tzMin : ℚ) (p : LNKParser) (adv : Bool)
    (r : LNKFile) (p1 : LNKParser) :
    LNKParser.parseHeader tzMin p adv = .ok (r, p1) ↔
      p.offset + 64 ≤ p.buffer.length ∧ p1 = p ∧
      ∃ tl path tl2, LinkTargetIDList.parse (p.buffer.drop (p.offset + 76)) = .ok tl ∧
        LinkTargetIDList.getPath tl = .ok (path, tl2) ∧
        r = LNKParser.headerRecordOf tzMin p.buffer p.offset tl2 := by
  constructor
  · intro h
    simp only [LNKParser.parseHeader, LNKParser.readGUID_IDL, Bool.false_eq_true,
      if_false] at h
    split at h
    case isTrue hlen =>
      split at h
      case h_1 e heq => exact absurd h (by simp)
      case h_2 tl heq =>
        split at h
        case h_1 e heq2 => exact absurd h (by simp)
        case h_2 q tl2 heq2 =>
          have hpair := Except.ok.inj h
          exact ⟨hlen, (congrArg Prod.snd hpair).symm, tl, q, tl2, heq, heq2,
            (congrArg Prod.fst hpair).symm⟩
    case isFalse hlen => exact absurd h (by simp)
  · rintro ⟨hlen, heqp, tl, path, tl2, hparse, hpath, rfl⟩
    subst heqp
    exact parseHeader_ok_of tzMin p1 adv tl path tl2 hlen hparse hpath

theorem jsToInt32_eq_iff (u : Nat) (hu : u < 4294967296) (v : Int)
    (hv : 0 ≤ v) (hv2 : v < 2147483648) :
    jsToInt32 u = v ↔ (u : Int) = v := by
  simp only [jsToInt32]
  rw [Nat.mod_eq_of_lt hu]
  split_ifs with hc
  · exact Iff.rfl
  · constructor
    · intro h
      omega
    · intro h
      omega

/-- The valid flag of the parsed header record holds exactly when the first
20 bytes of the buffer are the canonical ones: 76 as little-endian int32 then
the 16 class-identifier bytes. -/
theorem headerValid_iff (tzMin : ℚ) (tl2 : LinkTargetIDList) (buf : List Nat)
    (hb : ∀ b ∈ buf, b < 256) (hlen : 64 ≤ buf.length) :
    (LNKParser.headerRecordOf tzMin buf 0 tl2).valid = true ↔
      ∀ j, j < 20 → buf.getD j 0 = canonicalHeadBytes.getD j 0 := by
  have hbj := getD_lt_256 buf hb
  have hb0 := hbj 0
  have hb1 := hbj 1
  have hb2 := hbj 2
  have hb3 := hbj 3
  have hb4 := hbj 4
  have hb5 := hbj 5
  have hb6 := hbj 6
  have hb7 := hbj 7
  have hb8 := hbj 8
  have hb9 := hbj 9
  have hb10 := hbj 10
  have hb11 := hbj 11
  have hb12 := hbj 12
  have hb13 := hbj 13
  have hb14 := hbj 14
  have hb15 := hbj 15
  have hb16 := hbj 16
  have hb17 := hbj 17
  have hb18 := hbj 18
  have hb19 := hbj 19
  have hs16 : ((buf.drop 4).take 16).length = 16 := by
    rw [List.length_take, List.length_drop]
    omega
  obtain ⟨a0, a1, a2, a3, a4, a5, a6, a7, a8, a9, a10, a11, a12, a13, a14, a15, hs⟩ :=
    exists_explicit16 _ hs16
  have hsg : ∀ j, j < 16 → ((buf.drop 4).take 16).getD j 0 = buf.getD (4 + j) 0 :=
    fun j hj => by rw [getD_take _ _ _ hj, getD_drop]
  have ha0 : a0 = buf.getD 4 0 := by
    have h := hsg 0 (by norm_num)
    rw [hs] at h
    simpa using h
  have ha1 : a1 = buf.getD 5 0 := by
    have h := hsg 1 (by norm_num)
    rw [hs] at h
    simpa using h
  have ha2 : a2 = buf.getD 6 0 := by
    have h := hsg 2 (by norm_num)
    rw [hs] at h
    simpa using h
  have ha3 : a3 = buf.getD 7 0 := by
    have h := hsg 3 (by norm_num)
    rw [hs] at h
    simpa using h
  have ha4 : a4 = buf.getD 8 0 := by
    have h := hsg 4 (by norm_num)
    rw [hs] at h
    simpa using h
  have ha5 : a5 = buf.getD 9 0 := by
    have h := hsg 5 (by norm_num)
    rw [hs] at h
    simpa using h
  have ha6 : a6 = buf.getD 10 0 := by
    have h := hsg 6 (by norm_num)
    rw [hs] at h
    simpa using h
  have ha7 : a7 = buf.getD 11 0 := by
    have h := hsg 7 (by norm_num)
    rw [hs] at h
    simpa using h
  have ha8 : a8 = buf.getD 12 0 := by
    have h := hsg 8 (by norm_num)
    rw [hs] at h
    simpa using h
  have ha9 : a9 = buf.getD 13 0 := by
    have h := hsg 9 (by norm_num)
    rw [hs] at h
    simpa using h
  have ha10 : a10 = buf.getD 14 0 := by
    have h := hsg 10 (by norm_num)
    rw [hs] at h
    simpa using h
  have ha11 : a11 = buf.getD 15 0 := by
    have h := hsg 11 (by norm_num)
    rw [hs] at h
    simpa using h
  have ha12 : a12 = buf.getD 16 0 := by
    have h := hsg 12 (by norm_num)
    rw [hs] at h
    simpa using h
  have ha13 : a13 = buf.getD 17 0 := by
    have h := hsg 13 (by norm_num)
    rw [hs] at h
    simpa using h
  have ha14 : a14 = buf.getD 18 0 := by
    have h := hsg 14 (by norm_num)
    rw [hs] at h
    simpa using h
  have ha15 : a15 = buf.getD 19 0 := by
    have h := hsg 15 (by norm_num)
    rw [hs] at h
    simpa using h
  subst ha0 ha1 ha2 ha3 ha4 ha5 ha6 ha7 ha8 ha9 ha10 ha11 ha12 ha13 ha14 ha15
  simp only [LNKParser.headerRecordOf, LNKParser.readGUID_IDL, Nat.zero_add]
  rw [hs]
  rw [Bool.and_eq_true, beq_iff_eq, beq_iff_eq]
  simp only [guidFromIDLBytes, List.getD_cons_zero, List.getD_cons_succ,
    List.drop_succ_cons, List.drop_zero, List.map_cons, List.map_nil, VALID_LINK_CLSID,
    List.cons.injEq, and_true, leNat]
  norm_num [-List.getD_eq_getElem?_getD]
  rw [jsToInt32_eq_iff _ (by omega) 76 (by norm_num) (by norm_num),
    jsToInt32_eq_iff _
      (by
        have := hbj 7
        have := hbj 6
        have := hbj 5
        have := hbj 4
        omega)
      136193 (by norm_num) (by norm_num)]
  constructor
  · rintro ⟨h76, hcl⟩
    intro j hj
    interval_cases j <;> (simp only [canonicalHeadBytes, List.getD_cons_zero,
      List.getD_cons_succ]; omega)
  · intro h
    have hc : ∀ j, j < 20 → buf.getD j 0 = canonicalHeadBytes.getD j 0 := h
    have h0 := hc 0 (by norm_num)
    have h1 := hc 1 (by norm_num)
    have h2 := hc 2 (by norm_num)
    have h3 := hc 3 (by norm_num)
    have h4 := hc 4 (by norm_num)
    have h5 := hc 5 (by norm_num)
    have h6 := hc 6 (by norm_num)
    have h7 := hc 7 (by norm_num)
    have h8 := hc 8 (by norm_num)
    have h9 := hc 9 (by norm_num)
    have h10 := hc 10 (by norm_num)
    have h11 := hc 11 (by norm_num)
    have h12 := hc 12 (by norm_num)
    have h13 := hc 13 (by norm_num)
    have h14 := hc 14 (by norm_num)
    have h15 := hc 15 (by norm_num)
    have h16 := hc 16 (by norm_num)
    have h17 := hc 17 (by norm_num)
    have h18 := hc 18 (by norm_num)
    have h19 := hc 19 (by norm_num)
    simp only [canonicalHeadBytes, List.getD_cons_zero, List.getD_cons_succ]
      at h0 h1 h2 h3 h4 h5 h6 h7 h8 h9 h10 h11 h12 h13 h14 h15 h16 h17 h18 h19
    refine ⟨by omega, by omega, by omega, by omega, by omega, by omega, by omega,
      by omega, by omega, by omega, by omega⟩

/-! ### Claim C1: header validity and the 20 decisive bytes -/

/-- C1: when parseHeader returns a record, its valid flag holds exactly when
the first 4 bytes decode little-endian to 76 and the next 16 bytes are the
wire bytes of {00021401-0000-0000-C000-000000000046} (jointly: the first 20
bytes are the canonical ones); moreover changing any single one of those 20
bytes of a valid buffer still returns a record, with valid = false, every
other field populated from the same fixed 76-byte layout (so unchanged), and
the header-size and class-identifier fields still decoded from the modified
bytes at their fixed offsets. -/
theorem c1_header_validity (tzMin : ℚ) (buf : List Nat) (hb : ∀ b ∈ buf, b < 256)
    (r : LNKFile) (p1 : LNKParser)
    (hok : LNKParser.parseHeader tzMin ⟨buf, 0⟩ true = .ok (r, p1)) :
    (r.valid = true ↔ ∀ j, j < 20 → buf.getD j 0 = canonicalHeadBytes.getD j 0) ∧
    (r.valid = true → ∀ i, i < 20 → ∀ b2, b2 < 256 → b2 ≠ buf.getD i 0 →
      ∃ r2, LNKParser.parseHeader tzMin ⟨buf.set i b2, 0⟩ true =
          .ok (r2, ⟨buf.set i b2, 0⟩) ∧
        r2.valid = false ∧
        r2.linkFlags = r.linkFlags ∧
        r2.targetAttributeFlags = r.targetAttributeFlags ∧
        r2.targetCreationDate = r.targetCreationDate ∧
        r2.targetAccessDate = r.targetAccessDate ∧
        r2.targetWriteDate = r.targetWriteDate ∧
        r2.targetFileSize = r.targetFileSize ∧
        r2.icon = r.icon ∧
        r2.showCommand = r.showCommand ∧
        r2.hotKey = r.hotKey ∧
        r2.target = r.target ∧
        r2.headerSize = jsToInt32 (leNat (buf.set i b2) 0 4) ∧
        r2.linkCLSID = guidFromIDLBytes (((buf.set i b2).drop 4).take 16)) := by
  obtain ⟨hlen, hp1, tl, path, tl2, hparse, hpath, hr⟩ := (parseHeader_ok_iff _ _ _ _ _).1 hok
  subst hr
  have hlen' : 64 ≤ buf.length := by simpa using hlen
  constructor
  · exact headerValid_iff tzMin tl2 buf hb hlen'
  · intro hvalid i hi b2 hb2 hne
    have hbytes := (headerValid_iff tzMin tl2 buf hb hlen').1 hvalid
    have hb' : ∀ b ∈ buf.set i b2, b < 256 := by
      intro b hbm
      rcases List.mem_or_eq_of_mem_set hbm with h | h
      · exact hb b h
      · omega
    have hlen2 : (⟨buf.set i b2, 0⟩ : LNKParser).offset + 64 ≤
        (⟨buf.set i b2, 0⟩ : LNKParser).buffer.length := by
      simpa using hlen'
    have hdrop : (buf.set i b2).drop (0 + 76) = buf.drop (0 + 76) :=
      drop_set_of_lt _ _ _ _ (by omega)
    have hok2 : LNKParser.parseHeader tzMin ⟨buf.set i b2, 0⟩ true =
        .ok (LNKParser.headerRecordOf tzMin (buf.set i b2) 0 tl2, ⟨buf.set i b2, 0⟩) := by
      refine parseHeader_ok_of tzMin ⟨buf.set i b2, 0⟩ true tl path tl2 hlen2 ?_ hpath
      show LinkTargetIDList.parse ((buf.set i b2).drop (0 + 76)) = .ok tl
      rw [hdrop]
      exact hparse
    refine ⟨LNKParser.headerRecordOf tzMin (buf.set i b2) 0 tl2, hok2,
      ?_, ?_, ?_, ?_, ?_, ?_, ?_, ?_, ?_, ?_, ?_, rfl, rfl⟩
    · rw [Bool.eq_false_iff]
      intro hvt
      have h2 := (headerValid_iff tzMin tl2 (buf.set i b2) hb' (by simpa using hlen')).1 hvt i hi
      rw [getD_set_self _ _ _ (by omega)] at h2
      exact hne (h2.trans (hbytes i hi).symm)
    · simp only [LNKParser.headerRecordOf]
      rw [leNat_set_of_lt _ _ _ _ _ (by omega)]
    · simp only [LNKParser.headerRecordOf]
      rw [leNat_set_of_lt _ _ _ _ _ (by omega)]
    · simp only [LNKParser.headerRecordOf, LNKParser.readFileTime]
      rw [leNat_set_of_lt _ _ _ _ _ (by omega)]
    · simp only [LNKParser.headerRecordOf, LNKParser.readFileTime]
      rw [leNat_set_of_lt _ _ _ _ _ (by omega)]
    · simp only [LNKParser.headerRecordOf, LNKParser.readFileTime]
      rw [leNat_set_of_lt _ _ _ _ _ (by omega)]
    · simp only [LNKParser.headerRecordOf]
      rw [leNat_set_of_lt _ _ _ _ _ (by omega)]
    · simp only [LNKParser.headerRecordOf]
      rw [leNat_set_of_lt _ _ _ _ _ (by omega)]
    · simp only [LNKParser.headerRecordOf]
      rw [leNat_set_of_lt _ _ _ _ _ (by omega)]
    · simp only [LNKParser.headerRecordOf]
      rw [getD_set_ne _ _ _ _ (by omega), getD_set_ne _ _ _ _ (by omega)]
    · rfl

/-- C1 witness: the synthetic end-to-end buffer satisfies the byte condition,
so its parsed record is valid. -/
theorem c1_header_validity_witness :
    (LNKParser.headerRecordOf 0 endToEndBuffer 0 ⟨true, [], some ""⟩).valid = true := by
  have hok : LNKParser.parseHeader (0 : ℚ) ⟨endToEndBuffer, 0⟩ true =
      .ok (LNKParser.headerRecordOf 0 endToEndBuffer 0 ⟨true, [], some ""⟩,
        ⟨endToEndBuffer, 0⟩) :=
    parseHeader_ok_of 0 ⟨endToEndBuffer, 0⟩ true ⟨true, [], none⟩ "" ⟨true, [], some ""⟩
      (by decide) (by decide) (by decide)
  have h := c1_header_validity 0 endToEndBuffer (by decide) _ _ hok
  exact h.1.mpr (by decide)

/-! ### Claim C8: show-command normalization -/

/-- C8: the show-command field of a parsed record is always one of the three
recognized constants 1 (Normal), 3 (Maximized), 7 (MinimizedWithoutFocus); it
equals the normalization of the 32-bit value decoded at offset 60, which is
the identity on the three constants and maps every other value to the Normal
default 1; and replacing the four show-command bytes by any values never
turns the parse into an error — the record is still produced, with the
normalized show command. -/
theorem c8_show_command_normalization (tzMin : ℚ) (buf : List Nat)
    (r : LNKFile) (p1 : LNKParser)
    (hok : LNKParser.parseHeader tzMin ⟨buf, 0⟩ true = .ok (r, p1)) :
    (r.showCommand = 1 ∨ r.showCommand = 3 ∨ r.showCommand = 7) ∧
    r.showCommand = LNKParser.normalizeShowCommand (leNat buf 60 4) ∧
    (∀ v, (v = 1 ∨ v = 3 ∨ v = 7) → LNKParser.normalizeShowCommand v = v) ∧
    (∀ v, ¬(v = 1 ∨ v = 3 ∨ v = 7) → LNKParser.normalizeShowCommand v = 1) ∧
    (∀ c0 c1 c2 c3 : Nat, ∃ r2, LNKParser.parseHeader tzMin
        ⟨(((buf.set 60 c0).set 61 c1).set 62 c2).set 63 c3, 0⟩ true =
          .ok (r2, ⟨(((buf.set 60 c0).set 61 c1).set 62 c2).set 63 c3, 0⟩) ∧
        r2.showCommand =
          LNKParser.normalizeShowCommand (leNat ((((buf.set 60 c0).set 61 c1).set 62 c2).set 63 c3) 60 4)) := by
  obtain ⟨hlen, hp1, tl, path, tl2, hparse, hpath, hr⟩ := (parseHeader_ok_iff _ _ _ _ _).1 hok
  subst hr
  refine ⟨?_, rfl, ?_, ?_, ?_⟩
  · simp only [LNKParser.headerRecordOf, LNKParser.normalizeShowCommand]
    split_ifs with h
    · exact h
    · exact Or.inl rfl
  · intro v hv
    simp [LNKParser.normalizeShowCommand, hv]
  · intro v hv
    simp [LNKParser.normalizeShowCommand, hv]
  · intro c0 c1 c2 c3
    have hlen2 : (⟨(((buf.set 60 c0).set 61 c1).set 62 c2).set 63 c3, 0⟩ : LNKParser).offset
        + 64 ≤ (⟨(((buf.set 60 c0).set 61 c1).set 62 c2).set 63 c3, 0⟩ : LNKParser).buffer.length := by
      simpa using hlen
    have hdrop : ((((buf.set 60 c0).set 61 c1).set 62 c2).set 63 c3).drop (0 + 76) =
        buf.drop (0 + 76) := by
      rw [drop_set_of_lt _ _ _ _ (by omega), drop_set_of_lt _ _ _ _ (by omega),
        drop_set_of_lt _ _ _ _ (by omega), drop_set_of_lt _ _ _ _ (by omega)]
    refine ⟨LNKParser.headerRecordOf tzMin ((((buf.set 60 c0).set 61 c1).set 62 c2).set 63 c3)
      0 tl2, ?_, rfl⟩
    refine parseHeader_ok_of tzMin _ true tl path tl2 hlen2 ?_ hpath
    show LinkTargetIDList.parse (((((buf.set 60 c0).set 61 c1).set 62 c2).set 63 c3).drop
      (0 + 76)) = .ok tl
    rw [hdrop]
    exact hparse

/-- C8 witness: a buffer with decoded show-command value 5 parses to a record
whose show command is the Normal default 1. -/
theorem c8_show_command_witness :
    ∃ r2, LNKParser.parseHeader (0 : ℚ)
        ⟨(((endToEndBuffer.set 60 5).set 61 0).set 62 0).set 63 0, 0⟩ true =
        .ok (r2, ⟨(((endToEndBuffer.set 60 5).set 61 0).set 62 0).set 63 0, 0⟩) ∧
      r2.showCommand = 1 := by
  have hok : LNKParser.parseHeader (0 : ℚ) ⟨endToEndBuffer, 0⟩ true =
      .ok (LNKParser.headerRecordOf 0 endToEndBuffer 0 ⟨true, [], some ""⟩,
        ⟨endToEndBuffer, 0⟩) :=
    parseHeader_ok_of 0 ⟨endToEndBuffer, 0⟩ true ⟨true, [], none⟩ "" ⟨true, [], some ""⟩
      (by decide) (by decide) (by decide)
  obtain ⟨r2, h1, h2⟩ :=
    (c8_show_command_normalization 0 endToEndBuffer _ _ hok).2.2.2.2 5 0 0 0
  refine ⟨r2, h1, ?_⟩
  rw [h2]
  decide

/-! ### Claim C9: the end-to-end synthetic buffer -/

/-- C9: the 78-byte buffer made of a valid 76-byte header (zero flags,
attributes, timestamps, target size, icon index, hotkey and reserved bytes;
show-command 1) followed by an empty ID list with size prefix 2 parses (for
every timezone offset) to a record with valid = true, showCommand = Normal = 1
and a target whose reconstructed cached path is the empty string. -/
theorem c9_end_to_end (tzMin : ℚ) :
    ∃ r tl, LNKParser.parse tzMin ⟨endToEndBuffer, 0⟩ = .ok (r, ⟨endToEndBuffer, 0⟩) ∧
      r.valid = true ∧ r.showCommand = 1 ∧
      r.target = LNKTarget.idList tl ∧ tl.cachedPath = some "" := by
  refine ⟨LNKParser.headerRecordOf tzMin endToEndBuffer 0 ⟨true, [], some ""⟩,
    ⟨true, [], some ""⟩, ?_, ?_, ?_, rfl, rfl⟩
  · exact parseHeader_ok_of tzMin ⟨endToEndBuffer, 0⟩ true ⟨true, [], none⟩ ""
      ⟨true, [], some ""⟩ (by decide) (by decide) (by decide)
  · rfl
  · rfl

/-! ### Claim C10: parse leaves the cursor unchanged and is repeatable -/

/-- C10: a successful parse call returns the parser state unchanged — in
particular the read-cursor field offset is unchanged — so a second parse call
on the same instance (the returned state) over the same buffer returns the
same record, for any fixed timezone offset. -/
theorem c10_parse_cursor_stable (tzMin : ℚ) (p : LNKParser) (r : LNKFile) (p1 : LNKParser)
    (hok : LNKParser.parse tzMin p = .ok (r, p1)) :
    p1 = p ∧ p1.offset = p.offset ∧
      LNKParser.parse tzMin p1 = LNKParser.parse tzMin p := by
  obtain ⟨hlen, hp1, _⟩ := (parseHeader_ok_iff tzMin p true r p1).1 hok
  subst hp1
  exact ⟨rfl, rfl, rfl⟩

/-- C10 witness: the end-to-end buffer, parsed with timezone offset 0: the
returned state is the original one. -/
theorem c10_parse_cursor_witness :
    ∃ r, LNKParser.parse (0 : ℚ) ⟨endToEndBuffer, 0⟩ = .ok (r, ⟨endToEndBuffer, 0⟩) ∧
      LNKParser.parse (0 : ℚ) ⟨endToEndBuffer, 0⟩ =
        LNKParser.parse (0 : ℚ) ⟨endToEndBuffer, 0⟩ := by
  have hok : LNKParser.parse (0 : ℚ) ⟨endToEndBuffer, 0⟩ =
      .ok (LNKParser.headerRecordOf 0 endToEndBuffer 0 ⟨true, [], some ""⟩,
        ⟨endToEndBuffer, 0⟩) :=
    parseHeader_ok_of 0 ⟨endToEndBuffer, 0⟩ true ⟨true, [], none⟩ "" ⟨true, [], some ""⟩
      (by decide) (by decide) (by decide)
  have h := c10_parse_cursor_stable 0 ⟨endToEndBuffer, 0⟩ _ _ hok
  exact ⟨_, hok, h.2.2⟩

/-! ### Claim C6: UserDirectory signature handling -/

/-- C6: on a UserDirectory item (tag 0x74) the path step faults with the
unsupported-feature error "Method not implemented" when the 4 signature bytes
at payload offset 3 are "CF\0\0" (no partial path is produced), appends
"%USERPROFILE%\" plus the narrow null-terminated name at offset 21 plus "\"
when they are "CFSF", and faults with the invalid-input error
"Invalid signature!" for any other signature. -/
theorem c6_userDirectory_signature_cases (path : String) (item : LinkTargetIDItem)
    (hty : item.itemType = 116) :
    ((item.value.getD 3 0 = 67 ∧ item.value.getD 4 0 = 70 ∧
      item.value.getD 5 0 = 0 ∧ item.value.getD 6 0 = 0) →
      LinkTargetIDList.getPathStep path item = .error "Method not implemented") ∧
    ((item.value.getD 3 0 = 67 ∧ item.value.getD 4 0 = 70 ∧
      item.value.getD 5 0 = 83 ∧ item.value.getD 6 0 = 70) →
      LinkTargetIDList.getPathStep path item =
        .ok (path ++ "%USERPROFILE%\\" ++ readCString item.value 21 ++ "\\")) ∧
    ((readString item.value 3 4 ≠ zipContentsSignature ∧
      readString item.value 3 4 ≠ cfsfSignature) →
      LinkTargetIDList.getPathStep path item = .error "Invalid signature!") := by
  have hsig : readString item.value 3 4 =
      String.mk [charOfCode (item.value.getD 3 0), charOfCode (item.value.getD 4 0),
        charOfCode (item.value.getD 5 0), charOfCode (item.value.getD 6 0)] := rfl
  refine ⟨fun h => ?_, fun h => ?_, fun h => ?_⟩
  · obtain ⟨h3, h4, h5, h6⟩ := h
    simp only [LinkTargetIDList.getPathStep, hty]
    rw [if_neg (by decide), if_neg (by decide), if_neg (by decide), if_pos (by decide),
      hsig, h3, h4, h5, h6, if_pos (by decide)]
  · obtain ⟨h3, h4, h5, h6⟩ := h
    simp only [LinkTargetIDList.getPathStep, hty]
    rw [if_neg (by decide), if_neg (by decide), if_neg (by decide), if_pos (by decide),
      hsig, h3, h4, h5, h6, if_neg (by decide), if_pos (by decide)]
  · simp only [LinkTargetIDList.getPathStep, hty]
    rw [if_neg (by decide), if_neg (by decide), if_neg (by decide), if_pos (by decide),
      if_neg h.1, if_neg h.2]

/-- C6 witness: a concrete UserDirectory item with signature "CFSF" and the
name "Desktop" at offset 21 yields "%USERPROFILE%\Desktop\". -/
theorem c6_userDirectory_witness :
    LinkTargetIDList.getPathStep ""
      ⟨116, [0, 0, 0, 67, 70, 83, 70] ++ List.replicate 14 0 ++
        [68, 101, 115, 107, 116, 111, 112, 0]⟩ = .ok "%USERPROFILE%\\Desktop\\" := by
  have h := (c6_userDirectory_signature_cases ""
    ⟨116, [0, 0, 0, 67, 70, 83, 70] ++ List.replicate 14 0 ++
      [68, 101, 115, 107, 116, 111, 112, 0]⟩ rfl).2.1 (by decide)
  rw [h]
  decide

end LnkParser
